import Mathlib

/-!
Verification of the brdoc library (Brazilian fiscal document validation:
CPF and CNPJ).  Go strings are modelled as lists of byte values
(`List Nat`); every scanning operation of the source works byte by byte,
and all significant bytes are ASCII, so this embedding is exact on the
inputs the library is specified for.  Fallible Go functions returning
`(T, error)` are modelled as `Option`/`Except` values.

The current implementation (brdoc.go) and the earlier revision
(validator.go) of the CPF check-digit verification are both embedded,
since they differ in a subtle way (see `CPF.validate`).
-/

set_option maxRecDepth 4000

/-- Byte sequence of an ASCII string, matching Go's byte view of it. -/
def bytes (s : String) : List Nat := s.data.map Char.toNat

/-- Embedding of strconv.Itoa for natural numbers: the decimal digits of
the number as a byte list. -/
def itoa (n : Nat) : List Nat := (Nat.toDigits 10 n).map Char.toNat

namespace CPF

/-- Region label for ninth digit 0 (brdoc.go const block). -/
def IsDigit0 : String := "Rio Grande do Sul"

/-- Region label for ninth digit 1. -/
def IsDigit1 : String := "Federal District, Goiás, Mato Grosso do Sul, and Tocantins"

/-- Region label for ninth digit 2. -/
def IsDigit2 : String := "Pará, Amazonas, Acre, Amapá, Rondônia, and Roraima"

/-- Region label for ninth digit 3. -/
def IsDigit3 : String := "Ceará, Maranhão, and Piauí"

/-- Region label for ninth digit 4. -/
def IsDigit4 : String := "Pernambuco, Rio Grande do Norte, Paraíba, and Alagoas"

/-- Region label for ninth digit 5. -/
def IsDigit5 : String := "Bahia and Sergipe"

/-- Region label for ninth digit 6. -/
def IsDigit6 : String := "Minas Gerais"

/-- Region label for ninth digit 7. -/
def IsDigit7 : String := "Rio de Janeiro and Espírito Santo"

/-- Region label for ninth digit 8. -/
def IsDigit8 : String := "São Paulo"

/-- Region label for ninth digit 9. -/
def IsDigit9 : String := "Paraná and Santa Catarina"

/-- Test `ch >= '0' && ch <= '9'` on a byte (CPF.isDigit in brdoc.go). -/
def isDigit (b : Nat) : Bool := 48 ≤ b && b ≤ 57

/-- CPF.digits: keep only decimal-digit bytes of the input.  The Go code
uses a fixed 11-byte fast path plus a fallback allocation for longer
inputs; both paths together compute exactly this filter. -/
def digits (s : List Nat) : List Nat := s.filter isDigit

/-- CPF.clean: the digit values (0–9) of all digit bytes of the input, in
order.  Models the loop that appends `int(ch - '0')` for each digit
byte. -/
def clean (s : List Nat) : List Nat :=
  s.filterMap (fun b => if isDigit b then some (b - 48) else none)

/-- Value of the notAcceptedCPF package variable, built by the init
function: for each digit i in 0..9, the string of eleven copies of that
digit (as bytes). -/
def notAcceptedCPF : List (List Nat) :=
  (List.range 10).map (fun i => List.replicate 11 (48 + i))

/-- CPF.isAccepted: the digit-only form of the input is not one of the ten
all-same-digit sequences (slices.Contains on notAcceptedCPF). -/
def isAccepted (s : List Nat) : Bool := decide (digits s ∉ notAcceptedCPF)

/-- Running sum of the loop `for i, v := range value { sum += v * (10 - i) }`,
started at index i. -/
def firstDigitSum : Nat → List Nat → Nat
  | _, [] => 0
  | i, v :: rest => v * (10 - i) + firstDigitSum (i + 1) rest

/-- CPF.calculateFirstDigit (brdoc.go): weighted sum over all entries with
weight (10 − i), times 10, modulo 11, remainder 10 or 11 clamped to 0.
All call sites pass lists of at most 10 entries, so the Nat subtraction
in the weight agrees with Go's int arithmetic. -/
def calculateFirstDigit (value : List Nat) : Nat :=
  let rest := firstDigitSum 0 value * 10 % 11
  if rest = 10 ∨ rest = 11 then 0 else rest

/-- Running sum of the loop `for i, v := range value { sum += v * (11 - i) }`. -/
def secondDigitSum : Nat → List Nat → Nat
  | _, [] => 0
  | i, v :: rest => v * (11 - i) + secondDigitSum (i + 1) rest

/-- CPF.calculateSecondDigit (brdoc.go): same as the first digit but with
weight (11 − i). -/
def calculateSecondDigit (value : List Nat) : Nat :=
  let rest := secondDigitSum 0 value * 10 % 11
  if rest = 10 ∨ rest = 11 then 0 else rest

/-- CPF.validate of brdoc.go.  The Go body is

  dv1 := c.calculateFirstDigit(value[:9])
  dv2 := c.calculateSecondDigit(append(value[:9], dv1))
  return dv1 == value[9] && dv2 == value[10]

`value` always arrives from CPF.clean, whose slice has capacity ≥
CpfLength = 11, so `append(value[:9], dv1)` writes dv1 into the backing
array at index 9 before the comparisons run.  The read `value[9]` in the
return statement therefore yields dv1 itself, and the first comparison is
identically true; only dv2 (computed over the first nine digits extended
with the recomputed dv1) is compared against the given digit at index
10.  The embedding makes that observed behaviour explicit. -/
def validate (value : List Nat) : Bool :=
  if value.length ≠ 11 then false
  else
    let dv1 := calculateFirstDigit (value.take 9)
    let clobbered := value.take 9 ++ [dv1] ++ value.drop 10
    let dv2 := calculateSecondDigit (value.take 9 ++ [dv1])
    (dv1 == clobbered.getD 9 0) && (dv2 == clobbered.getD 10 0)

/-- CPF.Validate (brdoc.go): isAccepted, exact length 11, check digits. -/
def Validate (s : List Nat) : Bool :=
  isAccepted s && ((clean s).length == 11) && validate (clean s)

/-- CPF.maskCPF (brdoc.go): write the eleven digit values into a 14-byte
buffer with separators at positions 3, 7 ('.', byte 46) and 11 ('-',
byte 45); digit value v is rendered as byte '0'+v = 48+v. -/
def maskCPF (v : List Nat) : List Nat :=
  [48 + v.getD 0 0, 48 + v.getD 1 0, 48 + v.getD 2 0, 46,
   48 + v.getD 3 0, 48 + v.getD 4 0, 48 + v.getD 5 0, 46,
   48 + v.getD 6 0, 48 + v.getD 7 0, 48 + v.getD 8 0, 45,
   48 + v.getD 9 0, 48 + v.getD 10 0]

/-- CPF.Format (brdoc.go): clean, reject not-accepted inputs, reject when
the digit count differs from CpfLength = 11, otherwise mask. -/
def Format (s : List Nat) : Except String (List Nat) :=
  if ¬ isAccepted s then .error "CPF is not valid"
  else if (clean s).length ≠ 11 then .error "CPF must have 11 digits"
  else .ok (maskCPF (clean s))

/-- CPF.CheckOrigin (brdoc.go): clean, empty answer below nine digits,
otherwise a switch on the digit at index 8. -/
def CheckOrigin (s : List Nat) : String :=
  if (clean s).length < 9 then ""
  else
    match (clean s).getD 8 0 with
    | 0 => IsDigit0
    | 1 => IsDigit1
    | 2 => IsDigit2
    | 3 => IsDigit3
    | 4 => IsDigit4
    | 5 => IsDigit5
    | 6 => IsDigit6
    | 7 => IsDigit7
    | 8 => IsDigit8
    | 9 => IsDigit9
    | _ => ""

/-- CPF.Generate (brdoc.go), parameterised by the nine random draws
`rng.Intn(10)` that fill the body: append the first check digit computed
over the body, then the second computed over body plus first digit,
render every entry with strconv.Itoa into a string, and return its
digit-only form. -/
def Generate (draws : List Nat) : List Nat :=
  let number := draws ++ [calculateFirstDigit draws]
  let number2 := number ++ [calculateSecondDigit number]
  digits (number2.map itoa).flatten

end CPF

namespace ValidatorGoCPF

/-- calculateFirstDigit of the earlier revision (validator.go): the loop
runs `for i := 0; i < 9; i++`, reading only the first nine entries.  The
sole caller indexes a list already known to have eleven entries. -/
def calculateFirstDigit (values : List Nat) : Nat :=
  let sum := ((List.range 9).map (fun i => values.getD i 0 * (10 - i))).sum
  let rest := sum * 10 % 11
  if rest = 10 ∨ rest = 11 then 0 else rest

/-- calculateSecondDigit of the earlier revision (validator.go): the loop
runs `for i := 0; i < 10; i++`. -/
def calculateSecondDigit (values : List Nat) : Nat :=
  let sum := ((List.range 10).map (fun i => values.getD i 0 * (11 - i))).sum
  let rest := sum * 10 % 11
  if rest = 10 ∨ rest = 11 then 0 else rest

/-- CPF.validate of the earlier revision (validator.go): both recomputed
check digits are compared against the given digits at indices 9 and 10;
no slice aliasing is involved. -/
def validate (values : List Nat) : Bool :=
  if values.length ≠ 11 then false
  else
    (calculateFirstDigit values == values.getD 9 0) &&
    (calculateSecondDigit values == values.getD 10 0)

end ValidatorGoCPF

namespace CNPJ

/-- CNPJ.normalizeChar (brdoc.go): lowercase letters are uppercased,
digits and uppercase letters pass through, everything else is dropped. -/
def normalizeChar (b : Nat) : Option Nat :=
  if 97 ≤ b ∧ b ≤ 122 then some (b - 32)
  else if (48 ≤ b ∧ b ≤ 57) ∨ (65 ≤ b ∧ b ≤ 90) then some b
  else none

/-- CNPJ.digits (brdoc.go): uppercase letters and keep only 0-9 and A-Z.
As with the CPF filter, the fixed-buffer fast path plus fallback compute
exactly this filterMap. -/
def digits (s : List Nat) : List Nat := s.filterMap normalizeChar

/-- Embedding of the charToValue map (brdoc.go): its 36 entries send the
digit bytes '0'..'9' (48–57) to 0..9 and the letter bytes 'A'..'Z'
(65–90) to 17..42, in both cases byte value minus 48; every other byte
is absent from the map. -/
def charToValue (b : Nat) : Option Nat :=
  if (48 ≤ b ∧ b ≤ 57) ∨ (65 ≤ b ∧ b ≤ 90) then some (b - 48) else none

/-- Weight table of CNPJ.calculateDV. -/
def weights : List Nat := [2, 3, 4, 5, 6, 7, 8, 9]

/-- Loop of CNPJ.calculateDV over the reversed input: j is the weight
index, sum the accumulator; an unmapped byte aborts with the Go error
return. -/
def dvLoop : List Nat → Nat → Nat → Option Nat
  | [], _, sum => some sum
  | b :: rest, j, sum =>
    match charToValue b with
    | none => none
    | some v => dvLoop rest ((j + 1) % 8) (sum + v * weights.getD j 0)

/-- CNPJ.calculateDV (brdoc.go): traverse the input right to left with the
cyclic weights, take the sum modulo 11, give 0 for remainder 0 or 1 and
11 − remainder otherwise; an invalid character yields an error (none). -/
def calculateDV (value : List Nat) : Option Nat :=
  match dvLoop value.reverse 0 0 with
  | none => none
  | some sum =>
    let remainder := sum % 11
    if remainder = 0 ∨ remainder = 1 then some 0 else some (11 - remainder)

/-- CNPJ.Validate (brdoc.go): normalize, require 14 characters, require
the two final bytes to be decimal digits, recompute both check digits
(the second over the base extended with the first recomputed digit) and
compare. -/
def Validate (s : List Nat) : Bool :=
  let cleaned := digits s
  if cleaned.length ≠ 14 then false
  else
    let ch12 := cleaned.getD 12 0
    if ch12 < 48 ∨ 57 < ch12 then false
    else
      let dv1 := ch12 - 48
      let ch13 := cleaned.getD 13 0
      if ch13 < 48 ∨ 57 < ch13 then false
      else
        let dv2 := ch13 - 48
        let base := cleaned.take 12
        match calculateDV base with
        | none => false
        | some dv1Calc =>
          match calculateDV (base ++ itoa dv1Calc) with
          | none => false
          | some dv2Calc => (dv1Calc == dv1) && (dv2Calc == dv2)

/-- CNPJ.maskCNPJ: the 18-byte buffer built by CNPJ.Format, separators at
positions 2, 6 ('.', 46), 10 ('/', 47) and 15 ('-', 45). -/
def maskCNPJ (v : List Nat) : List Nat :=
  [v.getD 0 0, v.getD 1 0, 46,
   v.getD 2 0, v.getD 3 0, v.getD 4 0, 46,
   v.getD 5 0, v.getD 6 0, v.getD 7 0, 47,
   v.getD 8 0, v.getD 9 0, v.getD 10 0, v.getD 11 0, 45,
   v.getD 12 0, v.getD 13 0]

/-- CNPJ.Format (brdoc.go): normalize, error unless exactly 14 characters
remain, otherwise the fixed 18-byte rendering. -/
def Format (s : List Nat) : Except String (List Nat) :=
  if (digits s).length ≠ 14 then .error "CNPJ must have 14 characters"
  else .ok (maskCNPJ (digits s))

/-- CNPJ.generateDigits (brdoc.go), parameterised by the 12 drawn base
bytes (digits for the legacy mode, digits or uppercase letters
otherwise): compute both check digits over the base and concatenate
base, dv1, dv2; a check-digit error yields the empty string. -/
def generateDigits (base : List Nat) : List Nat :=
  match calculateDV base with
  | none => []
  | some dv1 =>
    match calculateDV (base ++ itoa dv1) with
    | none => []
    | some dv2 => base ++ itoa dv1 ++ itoa dv2

end CNPJ

/-- Removal of every occurrence of one byte, the effect of
strings.ReplaceAll(s, c, "") for a one-byte pattern. -/
def removeAll (s : List Nat) (b : Nat) : List Nat := s.filter (fun x => x ≠ b)

/-- Uppercasing of one byte, the effect of strings.ToUpper on ASCII
input (the only inputs with specified behaviour). -/
def upperByte (b : Nat) : Nat := if 97 ≤ b ∧ b ≤ 122 then b - 32 else b

/-- ValidateDocument (brdoc.go): strip '.', '-', '/' (bytes 46, 45, 47),
uppercase, and dispatch on the stripped length: 11 to CPF.Validate on
the original input, 14 to CNPJ.Validate on the original input, anything
else to ("UNKNOWN", false). -/
def ValidateDocument (doc : List Nat) : String × Bool :=
  let cleaned := ((removeAll (removeAll (removeAll doc 46) 45) 47).map upperByte)
  if cleaned.length = 11 then ("CPF", CPF.Validate doc)
  else if cleaned.length = 14 then ("CNPJ", CNPJ.Validate doc)
  else ("UNKNOWN", false)

namespace Spec

/-- Character-to-value mapping as the specification words it: digits 0–9
map to their numeric value, the letters A–Z map to 17–42 inclusive, any
other character is unmapped.  Stated as an explicit 36-entry table. -/
def charTable : List (Nat × Nat) :=
  [(48, 0), (49, 1), (50, 2), (51, 3), (52, 4), (53, 5), (54, 6), (55, 7), (56, 8), (57, 9),
   (65, 17), (66, 18), (67, 19), (68, 20), (69, 21), (70, 22), (71, 23), (72, 24), (73, 25),
   (74, 26), (75, 27), (76, 28), (77, 29), (78, 30), (79, 31), (80, 32), (81, 33), (82, 34),
   (83, 35), (84, 36), (85, 37), (86, 38), (87, 39), (88, 40), (89, 41), (90, 42)]

/-- Spec-side character value: lookup in the 36-entry table. -/
def refCharValue (b : Nat) : Option Nat := charTable.lookup b

/-- Cyclically repeating weight sequence [2,3,4,5,6,7,8,9], starting at
weight 2 and wrapping back to 2 after weight 9; i counts positions from
the rightmost character. -/
def cycleWeight (i : Nat) : Nat := [2, 3, 4, 5, 6, 7, 8, 9].getD (i % 8) 0

/-- Reference check-digit computation as the specification words it: map
every character to its value (error if any is unmapped), traverse right
to left pairing position i from the right with cycleWeight i, sum the
products, take the sum modulo 11; remainder 0 or 1 gives digit 0, any
other remainder gives 11 − remainder. -/
def refDV (value : List Nat) : Option Nat :=
  if value.all (fun b => (refCharValue b).isSome) then
    let vals := value.reverse.map (fun b => (refCharValue b).getD 0)
    let sum := (List.zipWith (fun v i => v * cycleWeight i) vals (List.range vals.length)).sum
    let r := sum % 11
    some (if r = 0 ∨ r = 1 then 0 else 11 - r)
  else none

/-- Reference first CPF check digit over a 9-digit body: weight digit i
(0-indexed from the left) by 10 − i, sum, multiply by 10, modulo 11,
clamp a remainder of 10 or 11 to 0. -/
def refFirstDigit (body : List Nat) : Nat :=
  let s := ((List.range 9).map (fun i => body.getD i 0 * (10 - i))).sum
  let r := s * 10 % 11
  if r = 10 ∨ r = 11 then 0 else r

/-- Reference second CPF check digit over the first 10 digits (body plus
first check digit), with weight 11 − i. -/
def refSecondDigit (body : List Nat) : Nat :=
  let s := ((List.range 10).map (fun i => body.getD i 0 * (11 - i))).sum
  let r := s * 10 % 11
  if r = 10 ∨ r = 11 then 0 else r

/-- CPF validity as claim C1 words it: the digit-only form is not one of
the ten degenerate sequences, the cleaned sequence has exactly 11
digits, the first check digit recomputed from the first 9 digits matches
the given digit at index 9, and the second check digit recomputed from
the first 10 given digits matches the given digit at index 10. -/
def cpfClaimValid (s : List Nat) : Bool :=
  decide (CPF.digits s ∉ CPF.notAcceptedCPF) &&
  ((CPF.clean s).length == 11) &&
  (refFirstDigit ((CPF.clean s).take 9) == (CPF.clean s).getD 9 0) &&
  (refSecondDigit ((CPF.clean s).take 10) == (CPF.clean s).getD 10 0)

/-- Rendering of 11 digit values as three 3-digit groups separated by
periods, a hyphen, then the two check digits. -/
def renderCPF (d : List Nat) : List Nat :=
  (d.take 3).map (48 + ·) ++ [46] ++
  ((d.drop 3).take 3).map (48 + ·) ++ [46] ++
  ((d.drop 6).take 3).map (48 + ·) ++ [45] ++
  (d.drop 9).map (48 + ·)

/-- Rendering of a 14-character normalized CNPJ as two characters, period,
three, period, three, slash, four, hyphen, two. -/
def renderCNPJ (v : List Nat) : List Nat :=
  v.take 2 ++ [46] ++ ((v.drop 2).take 3) ++ [46] ++ ((v.drop 5).take 3) ++ [47] ++
  ((v.drop 8).take 4) ++ [45] ++ ((v.drop 12).take 2)

/-- CNPJ validity as claim C4 words it: the normalized form has exactly 14
characters, its final two characters are decimal digits, the first check
digit computed over the first 12 characters equals the character at
position 12, and the second check digit computed over the first 13
characters equals the character at position 13. -/
def cnpjClaimValid (s : List Nat) : Bool :=
  let n := CNPJ.digits s
  (n.length == 14) &&
  (48 ≤ n.getD 12 0 && n.getD 12 0 ≤ 57) &&
  (48 ≤ n.getD 13 0 && n.getD 13 0 ≤ 57) &&
  (refDV (n.take 12) == some (n.getD 12 0 - 48)) &&
  (refDV (n.take 13) == some (n.getD 13 0 - 48))

/-- Classifier as claim C7 words it: strip the three formatting bytes in
one pass, uppercase, and dispatch on the stripped length, handing the
original input to the matching validator. -/
def classify (doc : List Nat) : String × Bool :=
  let stripped := (doc.filter (fun b => !(b == 46 || b == 45 || b == 47))).map upperByte
  if stripped.length = 11 then ("CPF", CPF.Validate doc)
  else if stripped.length = 14 then ("CNPJ", CNPJ.Validate doc)
  else ("UNKNOWN", false)

/-- Fixed table of the ten region labels, indexed by the ninth digit. -/
def regionTable : List String :=
  [CPF.IsDigit0, CPF.IsDigit1, CPF.IsDigit2, CPF.IsDigit3, CPF.IsDigit4,
   CPF.IsDigit5, CPF.IsDigit6, CPF.IsDigit7, CPF.IsDigit8, CPF.IsDigit9]

end Spec

section Lemmas

/-- Closed form of the first-digit loop sum, for any starting index. -/
theorem firstDigitSum_eq (l : List Nat) : ∀ i : Nat,
    CPF.firstDigitSum i l = ((List.range l.length).map (fun k => l.getD k 0 * (10 - (i + k)))).sum := by
  induction l with
  | nil => intro i; simp [CPF.firstDigitSum]
  | cons v rest ih =>
    intro i
    rw [CPF.firstDigitSum, ih (i + 1)]
    rw [List.length_cons, List.range_succ_eq_map, List.map_cons, List.map_map, List.sum_cons]
    have h1 : (v :: rest).getD 0 0 * (10 - (i + 0)) = v * (10 - i) := by simp
    have h2 : List.map ((fun k => (v :: rest).getD k 0 * (10 - (i + k))) ∘ Nat.succ) (List.range rest.length)
        = List.map (fun k => rest.getD k 0 * (10 - (i + 1 + k))) (List.range rest.length) := by
      apply List.map_congr_left
      intro k _
      simp only [Function.comp_apply, List.getD_cons_succ]
      have h3 : i + Nat.succ k = i + 1 + k := by omega
      rw [h3]
    rw [h1, h2]

/-- Closed form of the second-digit loop sum. -/
theorem secondDigitSum_eq (l : List Nat) : ∀ i : Nat,
    CPF.secondDigitSum i l = ((List.range l.length).map (fun k => l.getD k 0 * (11 - (i + k)))).sum := by
  induction l with
  | nil => intro i; simp [CPF.secondDigitSum]
  | cons v rest ih =>
    intro i
    rw [CPF.secondDigitSum, ih (i + 1)]
    rw [List.length_cons, List.range_succ_eq_map, List.map_cons, List.map_map, List.sum_cons]
    have h1 : (v :: rest).getD 0 0 * (11 - (i + 0)) = v * (11 - i) := by simp
    have h2 : List.map ((fun k => (v :: rest).getD k 0 * (11 - (i + k))) ∘ Nat.succ) (List.range rest.length)
        = List.map (fun k => rest.getD k 0 * (11 - (i + 1 + k))) (List.range rest.length) := by
      apply List.map_congr_left
      intro k _
      simp only [Function.comp_apply, List.getD_cons_succ]
      have h3 : i + Nat.succ k = i + 1 + k := by omega
      rw [h3]
    rw [h1, h2]

end Lemmas

/-- Claim C3: the CPF check-digit functions equal the reference
definitions: over a 9-digit body the first check digit weights digit i by
10 − i, sums, multiplies by 10, reduces modulo 11 and clamps a remainder
of 10 or 11 to 0; the second check digit runs the identical process over
the first 10 digits with weight 11 − i. -/
theorem cpf_check_digits_match_reference :
    (∀ body : List Nat, body.length = 9 →
      CPF.calculateFirstDigit body = Spec.refFirstDigit body)
    ∧ (∀ v : List Nat, v.length = 10 →
      CPF.calculateSecondDigit v = Spec.refSecondDigit v) := by
  constructor
  · intro body h
    rw [CPF.calculateFirstDigit, Spec.refFirstDigit, firstDigitSum_eq, h]
    simp
  · intro v h
    rw [CPF.calculateSecondDigit, Spec.refSecondDigit, secondDigitSum_eq, h]
    simp

/-- Witness for claim C3 at the body 123456789 and its extension by the
first check digit 0. -/
theorem cpf_check_digits_match_reference_witness :
    CPF.calculateFirstDigit [1, 2, 3, 4, 5, 6, 7, 8, 9] = Spec.refFirstDigit [1, 2, 3, 4, 5, 6, 7, 8, 9]
    ∧ CPF.calculateSecondDigit [1, 2, 3, 4, 5, 6, 7, 8, 9, 0] = Spec.refSecondDigit [1, 2, 3, 4, 5, 6, 7, 8, 9, 0] :=
  ⟨cpf_check_digits_match_reference.1 _ (by decide),
   cpf_check_digits_match_reference.2 _ (by decide)⟩

/-- Claim C1 (code bug): on the input 12345678959 the brdoc.go
CPF.Validate answers true although the first check digit recomputed from
123456789 is 0, not the given 5: the append in CPF.validate overwrites
the given digit at index 9 with the recomputed one before the comparison,
so condition (c) of the claim is not enforced.  The claim's own
conjunction (degenerate check, length check, both check digits) is false
on this input. -/
theorem cpf_validate_skips_first_check_digit :
    CPF.Validate (bytes "12345678959") = true
    ∧ Spec.cpfClaimValid (bytes "12345678959") = false := by
  constructor <;> decide

/-- Auxiliary: getD through take, for an index below the cut. -/
theorem getD_take_of_lt (l : List Nat) (n k : Nat) (h : k < n) :
    (l.take n).getD k 0 = l.getD k 0 := by
  rw [List.getD_eq_getElem?_getD, List.getD_eq_getElem?_getD, List.getElem?_take, if_pos h]

/-- Claim C10 (counterexample): the two revisions disagree on the digit
sequence 1,2,3,4,5,6,7,8,9,5,9 — validator.go rejects it (the first check
digit recomputed from the body is 0, not the given 5) while brdoc.go
accepts it. -/
theorem cpf_validate_revisions_differ :
    ValidatorGoCPF.validate [1, 2, 3, 4, 5, 6, 7, 8, 9, 5, 9] = false
    ∧ CPF.validate [1, 2, 3, 4, 5, 6, 7, 8, 9, 5, 9] = true := by
  constructor <;> decide

/-- Claim C10 (amended): for every digit sequence, validator.go's
verification accepts exactly when brdoc.go's verification accepts and, in
addition, the given digit at index 9 equals the first check digit
recomputed from the first nine digits.  The append in brdoc.go's
CPF.validate overwrites index 9 of its input before the dv1 comparison,
making that comparison vacuous, so the two verifications coincide only on
sequences whose given first check digit is already correct. -/
theorem cpf_validate_revisions_relation :
    ∀ value : List Nat,
      ValidatorGoCPF.validate value
        = (CPF.validate value && (value.getD 9 0 == CPF.calculateFirstDigit (value.take 9))) := by
  intro value
  by_cases hlen : value.length = 11
  case neg =>
    simp [ValidatorGoCPF.validate, CPF.validate, hlen]
  case pos =>
    have h9take : (value.take 9).length = 9 := by
      rw [List.length_take]; omega
    have h10take : (value.take 10).length = 10 := by
      rw [List.length_take]; omega
    have hgd9 : value[9]? = some (value.getD 9 0) := by
      have h9 : 9 < value.length := by omega
      rw [List.getElem?_eq_getElem h9, List.getD_eq_getElem?_getD, List.getElem?_eq_getElem h9]
      rfl
    have hS1 : ((List.range 9).map (fun i => value.getD i 0 * (10 - i))).sum
        = CPF.firstDigitSum 0 (value.take 9) := by
      rw [firstDigitSum_eq, h9take]
      apply congrArg List.sum
      apply List.map_congr_left
      intro k hk
      rw [List.mem_range] at hk
      rw [getD_take_of_lt _ _ _ hk, Nat.zero_add]
    have hfd : ValidatorGoCPF.calculateFirstDigit value = CPF.calculateFirstDigit (value.take 9) := by
      simp only [ValidatorGoCPF.calculateFirstDigit, CPF.calculateFirstDigit, hS1]
    have hL : ValidatorGoCPF.validate value
        = ((ValidatorGoCPF.calculateFirstDigit value == value.getD 9 0) &&
           (ValidatorGoCPF.calculateSecondDigit value == value.getD 10 0)) := by
      rw [ValidatorGoCPF.validate, if_neg (by omega)]
    have hclo9 : (value.take 9 ++ [CPF.calculateFirstDigit (value.take 9)] ++ value.drop 10).getD 9 0
        = CPF.calculateFirstDigit (value.take 9) := by
      rw [List.getD_append _ _ _ 9 (by simp [h9take])]
      rw [List.getD_append_right _ _ _ 9 (by omega)]
      rw [h9take]
      rfl
    have hclo10 : (value.take 9 ++ [CPF.calculateFirstDigit (value.take 9)] ++ value.drop 10).getD 10 0
        = value.getD 10 0 := by
      rw [List.getD_append_right _ _ _ 10 (by simp [h9take])]
      have hlen2 : (value.take 9 ++ [CPF.calculateFirstDigit (value.take 9)]).length = 10 := by
        simp [h9take]
      rw [hlen2]
      rw [List.getD_eq_getElem?_getD, List.getElem?_drop, List.getD_eq_getElem?_getD]
    have hR : CPF.validate value
        = ((CPF.calculateFirstDigit (value.take 9) == CPF.calculateFirstDigit (value.take 9)) &&
           (CPF.calculateSecondDigit (value.take 9 ++ [CPF.calculateFirstDigit (value.take 9)])
             == value.getD 10 0)) := by
      simp only [CPF.validate]
      rw [if_neg (by omega)]
      rw [hclo9, hclo10]
    by_cases hgive : value.getD 9 0 = CPF.calculateFirstDigit (value.take 9)
    case pos =>
      have htake10 : value.take 9 ++ [CPF.calculateFirstDigit (value.take 9)] = value.take 10 := by
        conv_rhs => rw [show (10 : Nat) = 9 + 1 from rfl, List.take_succ, hgd9, hgive]
        rfl
      have hS2 : ((List.range 10).map (fun i => value.getD i 0 * (11 - i))).sum
          = CPF.secondDigitSum 0 (value.take 10) := by
        rw [secondDigitSum_eq, h10take]
        apply congrArg List.sum
        apply List.map_congr_left
        intro k hk
        rw [List.mem_range] at hk
        rw [getD_take_of_lt _ _ _ hk, Nat.zero_add]
      have hsd : ValidatorGoCPF.calculateSecondDigit value
          = CPF.calculateSecondDigit (value.take 9 ++ [CPF.calculateFirstDigit (value.take 9)]) := by
        rw [htake10]
        simp only [ValidatorGoCPF.calculateSecondDigit, CPF.calculateSecondDigit, hS2]
      rw [hL, hR, hfd, hsd, hgive]
      simp
    case neg =>
      rw [hL, hR, hfd]
      have h1 : (CPF.calculateFirstDigit (value.take 9) == value.getD 9 0) = false :=
        beq_eq_false_iff_ne.mpr (Ne.symm hgive)
      have h2 : (value.getD 9 0 == CPF.calculateFirstDigit (value.take 9)) = false :=
        beq_eq_false_iff_ne.mpr hgive
      rw [h1, h2]
      simp

/-- Auxiliary: lookup in an association list misses when the key differs
from every stored key. -/
theorem lookup_eq_none_of_forall {l : List (Nat × Nat)} {b : Nat}
    (h : ∀ p ∈ l, b ≠ p.1) : List.lookup b l = none := by
  induction l with
  | nil => rfl
  | cons p rest ih =>
    rw [show p = (p.1, p.2) from rfl, List.lookup_cons]
    rw [beq_eq_false_iff_ne.mpr (h p (by simp))]
    exact ih (fun q hq => h q (by simp [hq]))

/-- Auxiliary: the code's range-based character map agrees with the
36-entry table of the specification at every byte value. -/
theorem charToValue_eq_refCharValue : ∀ b : Nat, CNPJ.charToValue b = Spec.refCharValue b := by
  intro b
  rcases Nat.lt_or_ge b 91 with h | h
  · interval_cases b <;> rfl
  · have h1 : CNPJ.charToValue b = none := by
      rw [CNPJ.charToValue, if_neg (by omega)]
    have h2 : Spec.refCharValue b = none := by
      rw [Spec.refCharValue]
      apply lookup_eq_none_of_forall
      intro p hp
      have hle : p.1 ≤ 90 := by fin_cases hp <;> decide
      omega
    rw [h1, h2]

/-- Auxiliary: the cyclic weight at an index below 8 is the table entry. -/
theorem cycleWeight_eq_weights (j : Nat) (hj : j < 8) :
    Spec.cycleWeight j = CNPJ.weights.getD j 0 := by
  rw [Spec.cycleWeight, Nat.mod_eq_of_lt hj]
  rfl

/-- Auxiliary: shifting the cyclic weight index by one position. -/
theorem cycleWeight_shift (j i : Nat) :
    Spec.cycleWeight (j + (i + 1)) = Spec.cycleWeight ((j + 1) % 8 + i) := by
  rw [Spec.cycleWeight, Spec.cycleWeight]
  congr 1
  omega

/-- Closed form of the calculateDV loop: on an all-mapped input it returns
the accumulator plus the cyclically weighted sum; any unmapped byte gives
the error result. -/
theorem dvLoop_eq (l : List Nat) : ∀ (j sum : Nat), j < 8 →
    CNPJ.dvLoop l j sum =
      if l.all (fun b => (CNPJ.charToValue b).isSome) then
        some (sum + (List.zipWith (fun v i => v * Spec.cycleWeight (j + i))
          (l.map (fun b => (CNPJ.charToValue b).getD 0)) (List.range l.length)).sum)
      else none := by
  induction l with
  | nil => intro j sum hj; simp [CNPJ.dvLoop]
  | cons b rest ih =>
    intro j sum hj
    cases hcv : CNPJ.charToValue b with
    | none => simp [CNPJ.dvLoop, List.all_cons, hcv]
    | some v =>
      simp only [CNPJ.dvLoop, hcv]
      rw [ih ((j + 1) % 8) _ (Nat.mod_lt _ (by norm_num))]
      rw [List.all_cons, hcv]
      have hvb : (Option.some v).isSome = true := rfl
      rw [hvb, Bool.true_and]
      by_cases hall : rest.all (fun b => (CNPJ.charToValue b).isSome)
      case neg => rw [if_neg hall, if_neg hall]
      case pos =>
        rw [if_pos hall, if_pos hall]
        congr 1
        rw [List.map_cons, List.length_cons, List.range_succ_eq_map]
        rw [List.zipWith_cons_cons, List.zipWith_map_right, List.sum_cons]
        have hhead : (CNPJ.charToValue b).getD 0 * Spec.cycleWeight (j + 0) = v * CNPJ.weights.getD j 0 := by
          rw [hcv, Nat.add_zero, cycleWeight_eq_weights j hj]
          rfl
        have htail : List.zipWith (fun a i => a * Spec.cycleWeight (j + Nat.succ i))
              (rest.map (fun b => (CNPJ.charToValue b).getD 0)) (List.range rest.length)
            = List.zipWith (fun a i => a * Spec.cycleWeight ((j + 1) % 8 + i))
              (rest.map (fun b => (CNPJ.charToValue b).getD 0)) (List.range rest.length) := by
          have hfun : (fun (a i : Nat) => a * Spec.cycleWeight (j + Nat.succ i))
              = (fun (a i : Nat) => a * Spec.cycleWeight ((j + 1) % 8 + i)) := by
            funext a i
            rw [show j + Nat.succ i = j + (i + 1) from rfl, cycleWeight_shift]
          rw [hfun]
        rw [hhead, htail]
        omega

/-- Auxiliary: the code check-digit routine equals the reference routine
at every input. -/
theorem calculateDV_eq_refDV : ∀ value : List Nat, CNPJ.calculateDV value = Spec.refDV value := by
  intro value
  have hfun1 : (fun b => (CNPJ.charToValue b).isSome) = (fun b => (Spec.refCharValue b).isSome) := by
    funext b; rw [charToValue_eq_refCharValue]
  have hcond : (value.reverse.all fun b => (CNPJ.charToValue b).isSome)
      = (value.all fun b => (Spec.refCharValue b).isSome) := by
    rw [List.all_reverse, hfun1]
  cases hdl : CNPJ.dvLoop value.reverse 0 0 with
  | none =>
    rw [dvLoop_eq _ 0 0 (by norm_num), hcond] at hdl
    by_cases hall : (value.all fun b => (Spec.refCharValue b).isSome)
    case pos =>
      rw [if_pos hall] at hdl
      exact absurd hdl (by simp)
    case neg =>
      simp only [CNPJ.calculateDV]
      rw [dvLoop_eq _ 0 0 (by norm_num), hcond, if_neg hall]
      rw [Spec.refDV, if_neg hall]
  | some S =>
    have hdl0 := hdl
    rw [dvLoop_eq _ 0 0 (by norm_num), hcond] at hdl
    by_cases hall : (value.all fun b => (Spec.refCharValue b).isSome)
    case neg =>
      rw [if_neg hall] at hdl
      exact absurd hdl (by simp)
    case pos =>
      rw [if_pos hall] at hdl
      have hSum : 0 + (List.zipWith (fun v i => v * Spec.cycleWeight (0 + i))
          (value.reverse.map fun b => (CNPJ.charToValue b).getD 0)
          (List.range value.reverse.length)).sum = S := Option.some.inj hdl
      have hfun2 : (fun b => (CNPJ.charToValue b).getD 0) = (fun b => (Spec.refCharValue b).getD 0) := by
        funext b; rw [charToValue_eq_refCharValue]
      have hfun3 : (fun (v i : Nat) => v * Spec.cycleWeight (0 + i)) = (fun (v i : Nat) => v * Spec.cycleWeight i) := by
        funext v i; rw [Nat.zero_add]
      rw [hfun2, hfun3, Nat.zero_add] at hSum
      simp only [CNPJ.calculateDV, hdl0]
      simp only [Spec.refDV]
      rw [if_pos hall, List.length_map, hSum]
      split_ifs <;> rfl

/-- Claim C2: calculateDV equals the reference definition at every byte
string (map digits 0–9 to 0–9 and letters A–Z to 17–42, traverse right to
left with the cyclic weights 2..9 starting at 2, sum value times weight,
reduce modulo 11, give 0 for remainder 0 or 1 and 11 − remainder
otherwise); any byte outside the 36-character alphabet yields an error
rather than a default value; and on the SERPRO example base the two check
digits are 3 and 5. -/
theorem cnpj_calculateDV_matches_reference :
    (∀ value : List Nat, CNPJ.calculateDV value = Spec.refDV value)
    ∧ (∀ value : List Nat,
        (∃ b ∈ value, ¬ ((48 ≤ b ∧ b ≤ 57) ∨ (65 ≤ b ∧ b ≤ 90))) →
        CNPJ.calculateDV value = none)
    ∧ CNPJ.calculateDV (bytes "12ABC34501DE") = some 3
    ∧ CNPJ.calculateDV (bytes "12ABC34501DE3") = some 5 := by
  refine ⟨calculateDV_eq_refDV, ?_, by decide, by decide⟩
  intro value hbad
  rcases hbad with ⟨b, hb, hbad⟩
  have hall : (value.reverse.all fun b => (CNPJ.charToValue b).isSome) = false := by
    rw [List.all_reverse]
    exact List.all_eq_false.mpr ⟨b, hb, by simp [CNPJ.charToValue, hbad]⟩
  cases hdl : CNPJ.dvLoop value.reverse 0 0 with
  | none => simp only [CNPJ.calculateDV, hdl]
  | some S =>
    rw [dvLoop_eq _ 0 0 (by norm_num), hall] at hdl
    exact absurd hdl (by simp)

/-- Witness for claim C2: a byte outside the alphabet (the asterisk in
12*) makes calculateDV err. -/
theorem cnpj_calculateDV_matches_reference_witness :
    CNPJ.calculateDV (bytes "12*") = none :=
  cnpj_calculateDV_matches_reference.2.1 (bytes "12*") ⟨42, by decide, by decide⟩

/-- Auxiliary: a valid index gives the getElem? as a some of the getD. -/
theorem getElem?_eq_some_getD {l : List Nat} {k : Nat} (h : k < l.length) :
    l[k]? = some (l.getD k 0) := by
  rw [List.getElem?_eq_getElem h, List.getD_eq_getElem?_getD, List.getElem?_eq_getElem h]
  rfl

/-- Auxiliary: a check digit returned by calculateDV is at most 9. -/
theorem calculateDV_le_nine {l : List Nat} {v : Nat} (h : CNPJ.calculateDV l = some v) : v ≤ 9 := by
  cases hdl : CNPJ.dvLoop l.reverse 0 0 with
  | none =>
    simp [CNPJ.calculateDV, hdl] at h
  | some S =>
    simp only [CNPJ.calculateDV, hdl] at h
    split_ifs at h with hc
    · have := Option.some.inj h
      omega
    · have h1 := Option.some.inj h
      have h2 : S % 11 < 11 := Nat.mod_lt _ (by norm_num)
      omega

/-- Auxiliary: rendering of a one-digit value by strconv.Itoa. -/
theorem itoa_digit (v : Nat) (h : v ≤ 9) : itoa v = [48 + v] := by
  interval_cases v <;> rfl

/-- Auxiliary: every byte kept by the CNPJ normalization is a digit or an
uppercase letter. -/
theorem mem_digits_alpha {s : List Nat} {b : Nat} (h : b ∈ CNPJ.digits s) :
    (48 ≤ b ∧ b ≤ 57) ∨ (65 ≤ b ∧ b ≤ 90) := by
  rw [CNPJ.digits, List.mem_filterMap] at h
  rcases h with ⟨a, _, ha⟩
  rw [CNPJ.normalizeChar] at ha
  split_ifs at ha with h1 h2
  · have := Option.some.inj ha
    omega
  · have := Option.some.inj ha
    omega

/-- Claim C4: CNPJ.Validate accepts exactly when the normalized form has
14 characters, its last two characters are decimal digits, the first
check digit computed over the first 12 characters equals the character at
position 12, and the second check digit computed over the first 13
characters equals the character at position 13. -/
theorem cnpj_validate_matches_claim : ∀ s : List Nat, CNPJ.Validate s = Spec.cnpjClaimValid s := by
  intro s
  by_cases hlen : (CNPJ.digits s).length = 14
  case neg =>
    simp [CNPJ.Validate, Spec.cnpjClaimValid, hlen]
  case pos =>
    have h12lt : 12 < (CNPJ.digits s).length := by omega
    have h13lt : 13 < (CNPJ.digits s).length := by omega
    have e12 : (CNPJ.digits s).getD 12 0 = (CNPJ.digits s)[12] := List.getD_eq_getElem _ _ h12lt
    have e13 : (CNPJ.digits s).getD 13 0 = (CNPJ.digits s)[13] := List.getD_eq_getElem _ _ h13lt
    by_cases hd12 : 48 ≤ (CNPJ.digits s)[12] ∧ (CNPJ.digits s)[12] ≤ 57
    case neg =>
      have hcond : (CNPJ.digits s).getD 12 0 < 48 ∨ 57 < (CNPJ.digits s).getD 12 0 := by
        rw [e12]; omega
      have hsplit : ¬ (48 ≤ (CNPJ.digits s)[12]) ∨ ¬ ((CNPJ.digits s)[12] ≤ 57) := by omega
      rcases hsplit with h | h
      · simp [CNPJ.Validate, Spec.cnpjClaimValid, hlen, hcond, e12, e13, h]
      · simp [CNPJ.Validate, Spec.cnpjClaimValid, hlen, hcond, e12, e13, h]
    case pos =>
      have hg12 : ¬ ((CNPJ.digits s).getD 12 0 < 48 ∨ 57 < (CNPJ.digits s).getD 12 0) := by
        rw [e12]; omega
      by_cases hd13 : 48 ≤ (CNPJ.digits s)[13] ∧ (CNPJ.digits s)[13] ≤ 57
      case neg =>
        have hcond : (CNPJ.digits s).getD 13 0 < 48 ∨ 57 < (CNPJ.digits s).getD 13 0 := by
          rw [e13]; omega
        have hsplit : ¬ (48 ≤ (CNPJ.digits s)[13]) ∨ ¬ ((CNPJ.digits s)[13] ≤ 57) := by omega
        rcases hsplit with h | h
        · simp [CNPJ.Validate, Spec.cnpjClaimValid, hlen, hg12, hcond, e12, e13, hd12.1, hd12.2, h]
        · simp [CNPJ.Validate, Spec.cnpjClaimValid, hlen, hg12, hcond, e12, e13, hd12.1, hd12.2, h]
      case pos =>
        have hg13 : ¬ ((CNPJ.digits s).getD 13 0 < 48 ∨ 57 < (CNPJ.digits s).getD 13 0) := by
          rw [e13]; omega
        have hq1 : decide ((CNPJ.digits s)[12] < 48) = false := decide_eq_false (by omega)
        have hq2 : decide (57 < (CNPJ.digits s)[12]) = false := decide_eq_false (by omega)
        have hq3 : decide ((CNPJ.digits s)[13] < 48) = false := decide_eq_false (by omega)
        have hq4 : decide (57 < (CNPJ.digits s)[13]) = false := decide_eq_false (by omega)
        cases hdv1 : CNPJ.calculateDV ((CNPJ.digits s).take 12) with
        | none =>
          have href1 : Spec.refDV ((CNPJ.digits s).take 12) = none := by
            rw [← calculateDV_eq_refDV]; exact hdv1
          simp [CNPJ.Validate, Spec.cnpjClaimValid, hlen, hg12, hg13, hdv1, href1, e12, e13,
            hq1, hq2, hq3, hq4, hd12.1, hd12.2, hd13.1, hd13.2]
        | some dv1Calc =>
          have href1 : Spec.refDV ((CNPJ.digits s).take 12) = some dv1Calc := by
            rw [← calculateDV_eq_refDV]; exact hdv1
          by_cases heq : dv1Calc = (CNPJ.digits s)[12] - 48
          case neg =>
            have hbeq : (dv1Calc == (CNPJ.digits s)[12] - 48) = false :=
              beq_eq_false_iff_ne.mpr heq
            cases hdv2 : CNPJ.calculateDV ((CNPJ.digits s).take 12 ++ itoa dv1Calc) with
            | none =>
              simp [CNPJ.Validate, Spec.cnpjClaimValid, hlen, hg12, hg13, hdv1, hdv2, href1,
                e12, e13, hq1, hq2, hq3, hq4, hd12.1, hd12.2, hd13.1, hd13.2, hbeq]
            | some x =>
              simp [CNPJ.Validate, Spec.cnpjClaimValid, hlen, hg12, hg13, hdv1, hdv2, href1,
                e12, e13, hq1, hq2, hq3, hq4, hd12.1, hd12.2, hd13.1, hd13.2, hbeq]
          case pos =>
            subst heq
            have htake13 : (CNPJ.digits s).take 12 ++ itoa ((CNPJ.digits s)[12] - 48) = (CNPJ.digits s).take 13 := by
              rw [itoa_digit _ (calculateDV_le_nine hdv1)]
              rw [show 48 + ((CNPJ.digits s)[12] - 48) = (CNPJ.digits s)[12] by omega]
              conv_rhs => rw [show (13 : Nat) = 12 + 1 from rfl, List.take_succ,
                List.getElem?_eq_getElem h12lt]
              rfl
            cases hdv2 : CNPJ.calculateDV ((CNPJ.digits s).take 13) with
            | none =>
              have href2 : Spec.refDV ((CNPJ.digits s).take 13) = none := by
                rw [← calculateDV_eq_refDV]; exact hdv2
              simp [CNPJ.Validate, Spec.cnpjClaimValid, hlen, hg12, hg13, hdv1, htake13, hdv2,
                href1, href2, e12, e13, hq1, hq2, hq3, hq4, hd12.1, hd12.2, hd13.1, hd13.2]
            | some dv2Calc =>
              have href2 : Spec.refDV ((CNPJ.digits s).take 13) = some dv2Calc := by
                rw [← calculateDV_eq_refDV]; exact hdv2
              have hsome : (some dv2Calc == some ((CNPJ.digits s)[13] - 48))
                  = (dv2Calc == (CNPJ.digits s)[13] - 48) := rfl
              simp [CNPJ.Validate, Spec.cnpjClaimValid, hlen, hg12, hg13, hdv1, htake13, hdv2,
                href1, href2, e12, e13, hq1, hq2, hq3, hq4, hd12.1, hd12.2, hd13.1, hd13.2,
                hsome]

/-- Auxiliary: a list of length 11 is the explicit list of its first
eleven getD values. -/
theorem eq_explicit_of_len_eleven (l : List Nat) (h : l.length = 11) :
    l = [l.getD 0 0, l.getD 1 0, l.getD 2 0, l.getD 3 0, l.getD 4 0, l.getD 5 0,
         l.getD 6 0, l.getD 7 0, l.getD 8 0, l.getD 9 0, l.getD 10 0] := by
  apply List.ext_getElem?
  intro n
  by_cases hn : n < 11
  · interval_cases n <;> (rw [getElem?_eq_some_getD (by omega)]; rfl)
  · rw [List.getElem?_eq_none (by omega), List.getElem?_eq_none (by simp; omega)]

/-- Auxiliary: a list of length 14 is the explicit list of its first
fourteen getD values. -/
theorem eq_explicit_of_len_fourteen (l : List Nat) (h : l.length = 14) :
    l = [l.getD 0 0, l.getD 1 0, l.getD 2 0, l.getD 3 0, l.getD 4 0, l.getD 5 0, l.getD 6 0,
         l.getD 7 0, l.getD 8 0, l.getD 9 0, l.getD 10 0, l.getD 11 0, l.getD 12 0, l.getD 13 0] := by
  apply List.ext_getElem?
  intro n
  by_cases hn : n < 14
  · interval_cases n <;> (rw [getElem?_eq_some_getD (by omega)]; rfl)
  · rw [List.getElem?_eq_none (by omega), List.getElem?_eq_none (by simp; omega)]

/-- Auxiliary: on an 11-digit list the mask buffer agrees with the
grouped rendering of the specification. -/
theorem maskCPF_eq_render (l : List Nat) (h : l.length = 11) :
    CPF.maskCPF l = Spec.renderCPF l := by
  conv_rhs => rw [eq_explicit_of_len_eleven l h]
  rfl

/-- Auxiliary: on a 14-character list the CNPJ mask buffer agrees with
the grouped rendering of the specification. -/
theorem maskCNPJ_eq_render (l : List Nat) (h : l.length = 14) :
    CNPJ.maskCNPJ l = Spec.renderCNPJ l := by
  conv_rhs => rw [eq_explicit_of_len_fourteen l h]
  rfl

/-- Claim C6: CPF.Format errs exactly when the digit-only form is one of
the ten all-same-digit sequences or the digit count differs from 11, and
otherwise returns the fixed 14-character rendering (three 3-digit groups,
periods, hyphen, two check digits) without verifying check-digit
correctness. -/
theorem cpf_format_spec :
    ∀ s : List Nat, (CPF.Format s).toOption =
      if CPF.digits s ∈ CPF.notAcceptedCPF ∨ (CPF.clean s).length ≠ 11 then none
      else some (Spec.renderCPF (CPF.clean s)) := by
  intro s
  by_cases hacc : CPF.digits s ∈ CPF.notAcceptedCPF
  · rw [if_pos (Or.inl hacc)]
    have h1 : CPF.isAccepted s = false := by simp [CPF.isAccepted, hacc]
    simp [CPF.Format, h1, Except.toOption]
  · have h1 : CPF.isAccepted s = true := by simp [CPF.isAccepted, hacc]
    by_cases hlen : (CPF.clean s).length = 11
    · rw [if_neg (by simp [hacc, hlen])]
      simp [CPF.Format, h1, hlen, maskCPF_eq_render _ hlen, Except.toOption]
    · rw [if_pos (Or.inr hlen)]
      simp [CPF.Format, h1, hlen, Except.toOption]

/-- Claim C8: CNPJ.Format errs exactly when the normalized form does not
have 14 characters, and otherwise returns the fixed 18-character
rendering XX.XXX.XXX/XXXX-XX, without validating check digits or
requiring the last two characters to be digits. -/
theorem cnpj_format_spec :
    ∀ s : List Nat, (CNPJ.Format s).toOption =
      if (CNPJ.digits s).length = 14 then some (Spec.renderCNPJ (CNPJ.digits s)) else none := by
  intro s
  by_cases hlen : (CNPJ.digits s).length = 14
  · rw [if_pos hlen]
    simp [CNPJ.Format, hlen, maskCNPJ_eq_render _ hlen, Except.toOption]
  · rw [if_neg hlen]
    simp [CNPJ.Format, hlen, Except.toOption]

/-- Claim C7: ValidateDocument strips only '.', '-' and '/', uppercases
the remainder, and dispatches on the stripped length: exactly 11 gives
the CPF label with CPF.Validate on the original input, exactly 14 gives
the CNPJ label with CNPJ.Validate on the original input, and any other
length gives the UNKNOWN label and false without invoking either
validator. -/
theorem validateDocument_matches_claim :
    ∀ doc : List Nat, ValidateDocument doc = Spec.classify doc := by
  intro doc
  have hstrip : removeAll (removeAll (removeAll doc 46) 45) 47
      = doc.filter (fun b => !(b == 46 || b == 45 || b == 47)) := by
    simp only [removeAll, List.filter_filter]
    apply List.filter_congr
    intro b _
    by_cases h46 : b = 46 <;> by_cases h45 : b = 45 <;> by_cases h47 : b = 47 <;>
      simp [h46, h45, h47]
  simp only [ValidateDocument, Spec.classify, hstrip]

/-- Auxiliary: every entry produced by CPF.clean is a digit value below 10. -/
theorem clean_lt_ten {s : List Nat} {d : Nat} (h : d ∈ CPF.clean s) : d < 10 := by
  rw [CPF.clean, List.mem_filterMap] at h
  rcases h with ⟨b, _, hb⟩
  split_ifs at hb with hd
  have h1 := Option.some.inj hb
  simp [CPF.isDigit] at hd
  omega

/-- Auxiliary: with at least nine digits, CheckOrigin is the table lookup
at the digit at index 8. -/
theorem checkOrigin_of_ge {s : List Nat} (h : 9 ≤ (CPF.clean s).length) :
    CPF.CheckOrigin s = Spec.regionTable.getD ((CPF.clean s).getD 8 0) "" := by
  rw [CPF.CheckOrigin, if_neg (by omega)]
  have hmem : (CPF.clean s).getD 8 0 ∈ CPF.clean s := by
    rw [List.getD_eq_getElem?_getD, List.getElem?_eq_getElem (by omega)]
    exact List.getElem_mem _
  have hlt : (CPF.clean s).getD 8 0 < 10 := clean_lt_ten hmem
  set d := (CPF.clean s).getD 8 0 with hd
  interval_cases d <;> rfl

/-- Claim C9: CheckOrigin returns the empty string exactly when fewer
than nine digits are present; with at least nine digits it returns the
fixed region label selected solely by the digit at index 8, the ten
labels being pairwise distinct and all non-empty, regardless of
check-digit validity. -/
theorem cpf_checkOrigin_spec :
    (∀ s : List Nat,
      (CPF.CheckOrigin s = "" ↔ (CPF.clean s).length < 9)
      ∧ (9 ≤ (CPF.clean s).length →
          CPF.CheckOrigin s = Spec.regionTable.getD ((CPF.clean s).getD 8 0) ""))
    ∧ Spec.regionTable.length = 10
    ∧ Spec.regionTable.Nodup
    ∧ (∀ label ∈ Spec.regionTable, label ≠ "") := by
  refine ⟨?_, rfl, by decide, by decide⟩
  intro s
  constructor
  · constructor
    · intro hemp
      by_contra hge
      push_neg at hge
      rw [checkOrigin_of_ge hge] at hemp
      have hmem : (CPF.clean s).getD 8 0 ∈ CPF.clean s := by
        rw [List.getD_eq_getElem?_getD, List.getElem?_eq_getElem (by omega)]
        exact List.getElem_mem _
      have hlt : (CPF.clean s).getD 8 0 < 10 := clean_lt_ten hmem
      set d := (CPF.clean s).getD 8 0 with hd
      interval_cases d <;> exact absurd hemp (by decide)
    · intro hlt
      rw [CPF.CheckOrigin, if_pos hlt]
  · exact checkOrigin_of_ge

/-- Witness for claim C9 at an input with exactly nine digits: the label
is selected by the ninth digit. -/
theorem cpf_checkOrigin_spec_witness :
    9 ≤ (CPF.clean (bytes "123456789")).length
    ∧ CPF.CheckOrigin (bytes "123456789")
        = Spec.regionTable.getD ((CPF.clean (bytes "123456789")).getD 8 0) "" :=
  ⟨by decide, ((cpf_checkOrigin_spec.1 (bytes "123456789")).2 (by decide))⟩

/-- Claim C5 (counterexample): the draw sequence of nine zeros makes
CPF.Generate produce the degenerate sequence 00000000000, whose check
digits are again 0 and which CPF.Validate rejects as not accepted. -/
theorem cpf_generate_degenerate :
    CPF.Generate [0, 0, 0, 0, 0, 0, 0, 0, 0] = bytes "00000000000"
    ∧ CPF.Validate (CPF.Generate [0, 0, 0, 0, 0, 0, 0, 0, 0]) = false := by
  constructor <;> decide

/-- Auxiliary: both CPF check digits are at most 9. -/
theorem calculateFirstDigit_le_nine (l : List Nat) : CPF.calculateFirstDigit l ≤ 9 := by
  simp only [CPF.calculateFirstDigit]
  split_ifs with h
  · omega
  · have h1 : CPF.firstDigitSum 0 l * 10 % 11 < 11 := Nat.mod_lt _ (by norm_num)
    omega

/-- Auxiliary: the second CPF check digit is at most 9. -/
theorem calculateSecondDigit_le_nine (l : List Nat) : CPF.calculateSecondDigit l ≤ 9 := by
  simp only [CPF.calculateSecondDigit]
  split_ifs with h
  · omega
  · have h1 : CPF.secondDigitSum 0 l * 10 % 11 < 11 := Nat.mod_lt _ (by norm_num)
    omega

/-- Auxiliary: rendering a list of digit values by strconv.Itoa and
concatenating gives the corresponding digit bytes. -/
theorem flatten_map_itoa (l : List Nat) (h : ∀ d ∈ l, d < 10) :
    (l.map itoa).flatten = l.map (fun d => 48 + d) := by
  induction l with
  | nil => rfl
  | cons d rest ih =>
    rw [List.map_cons, List.flatten_cons, List.map_cons,
      itoa_digit d (by have := h d (by simp); omega),
      ih (fun x hx => h x (by simp [hx]))]
    rfl

/-- Auxiliary: digit bytes pass the CPF digit filter unchanged. -/
theorem filter_isDigit_map (l : List Nat) (h : ∀ d ∈ l, d < 10) :
    CPF.digits (l.map (fun d => 48 + d)) = l.map (fun d => 48 + d) := by
  rw [CPF.digits, List.filter_eq_self]
  intro b hb
  rw [List.mem_map] at hb
  rcases hb with ⟨d, hd, rfl⟩
  have := h d hd
  simp [CPF.isDigit]
  omega

/-- Auxiliary: CPF.clean is the digit filter followed by the byte-to-value
conversion. -/
theorem clean_eq_map_digits (s : List Nat) : CPF.clean s = (CPF.digits s).map (fun b => b - 48) := by
  rw [CPF.clean, CPF.digits]
  induction s with
  | nil => rfl
  | cons b rest ih =>
    by_cases h : CPF.isDigit b
    · simp [List.filterMap_cons, List.filter_cons, h, ih]
    · simp [List.filterMap_cons, List.filter_cons, h, ih]

/-- Auxiliary: cleaning the digit-byte rendering recovers the values. -/
theorem clean_map_digit_bytes (l : List Nat) (h : ∀ d ∈ l, d < 10) :
    CPF.clean (l.map (fun d => 48 + d)) = l := by
  rw [clean_eq_map_digits, filter_isDigit_map l h, List.map_map]
  have hco : ((fun b => b - 48) ∘ (fun d => 48 + d)) = id := by
    funext d
    simp
  rw [hco, List.map_id]

/-- Auxiliary: an 11-entry list whose entries are not all equal renders to
digit bytes outside the not-accepted table. -/
theorem map_not_accepted (l : List Nat) (hlen : l.length = 11)
    (hne : ¬ (∀ d ∈ l, d = l.getD 0 0)) :
    l.map (fun d => 48 + d) ∉ CPF.notAcceptedCPF := by
  intro hmem
  rw [CPF.notAcceptedCPF, List.mem_map] at hmem
  rcases hmem with ⟨i, _, hi⟩
  apply hne
  have hall : ∀ b ∈ l.map (fun d => 48 + d), b = 48 + i := by
    rw [← hi]
    intro b hb
    exact List.eq_of_mem_replicate hb
  have hdl : ∀ d ∈ l, d = i := by
    intro d hd
    have := hall (48 + d) (List.mem_map.mpr ⟨d, hd, rfl⟩)
    omega
  intro d hd
  rw [hdl d hd]
  have h0 : l.getD 0 0 ∈ l := by
    rw [List.getD_eq_getElem?_getD, List.getElem?_eq_getElem (by omega)]
    exact List.getElem_mem _
  rw [hdl _ h0]

/-- Auxiliary: brdoc.go CPF.validate accepts a body extended with its two
computed check digits. -/
theorem validate_generated (draws : List Nat) (h9 : draws.length = 9) :
    CPF.validate (draws ++ [CPF.calculateFirstDigit draws,
      CPF.calculateSecondDigit (draws ++ [CPF.calculateFirstDigit draws])]) = true := by
  have hlen : (draws ++ [CPF.calculateFirstDigit draws,
      CPF.calculateSecondDigit (draws ++ [CPF.calculateFirstDigit draws])]).length = 11 := by
    simp [h9]
  have htake9 : (draws ++ [CPF.calculateFirstDigit draws,
      CPF.calculateSecondDigit (draws ++ [CPF.calculateFirstDigit draws])]).take 9 = draws :=
    List.take_left' h9
  have hdrop10 : (draws ++ [CPF.calculateFirstDigit draws,
      CPF.calculateSecondDigit (draws ++ [CPF.calculateFirstDigit draws])]).drop 10
      = [CPF.calculateSecondDigit (draws ++ [CPF.calculateFirstDigit draws])] := by
    rw [List.drop_append_eq_append_drop, List.drop_eq_nil_of_le (by omega), h9]
    rfl
  simp only [CPF.validate]
  rw [if_neg (by omega)]
  rw [htake9, hdrop10]
  have hg9 : (draws ++ [CPF.calculateFirstDigit draws]
      ++ [CPF.calculateSecondDigit (draws ++ [CPF.calculateFirstDigit draws])]).getD 9 0
      = CPF.calculateFirstDigit draws := by
    rw [List.getD_append _ _ _ 9 (by simp [h9])]
    rw [List.getD_append_right _ _ _ 9 (by omega), h9]
    rfl
  have hg10 : (draws ++ [CPF.calculateFirstDigit draws]
      ++ [CPF.calculateSecondDigit (draws ++ [CPF.calculateFirstDigit draws])]).getD 10 0
      = CPF.calculateSecondDigit (draws ++ [CPF.calculateFirstDigit draws]) := by
    rw [List.getD_append_right _ _ _ 10 (by simp [h9])]
    simp [h9]
  rw [hg9, hg10]
  simp

/-- Auxiliary: the digit filter distributes over concatenation. -/
theorem digits_append (a b : List Nat) : CPF.digits (a ++ b) = CPF.digits a ++ CPF.digits b := by
  rw [CPF.digits, CPF.digits, CPF.digits, List.filter_append]

/-- Auxiliary: filtering the grouped CPF rendering recovers the digit
bytes (the separators are not digits). -/
theorem digits_renderCPF (l : List Nat) (h : ∀ d ∈ l, d < 10) :
    CPF.digits (Spec.renderCPF l) = l.map (fun d => 48 + d) := by
  rw [Spec.renderCPF]
  rw [digits_append, digits_append, digits_append, digits_append, digits_append, digits_append]
  rw [filter_isDigit_map _ (fun d hd => h d (List.mem_of_mem_take hd))]
  rw [filter_isDigit_map _ (fun d hd => h d (List.mem_of_mem_drop (List.mem_of_mem_take hd)))]
  rw [filter_isDigit_map _ (fun d hd => h d (List.mem_of_mem_drop (List.mem_of_mem_take hd)))]
  rw [filter_isDigit_map _ (fun d hd => h d (List.mem_of_mem_drop hd))]
  rw [show CPF.digits [46] = [] from rfl, show CPF.digits [45] = [] from rfl]
  rw [List.map_take, List.map_drop, List.map_take, List.map_drop, List.map_take, List.map_drop]
  have e1 : ((l.map (fun d => 48 + d)).drop 9 = ((l.map (fun d => 48 + d)).drop 6).drop 3) := by
    rw [List.drop_drop]
  have e2 : ((l.map (fun d => 48 + d)).drop 6 = ((l.map (fun d => 48 + d)).drop 3).drop 3) := by
    rw [List.drop_drop]
  rw [e1, e2]
  generalize l.map (fun d => 48 + d) = m
  simp only [List.append_nil, List.nil_append, List.append_assoc]
  rw [List.take_append_drop 3 (List.drop 3 (List.drop 3 m))]
  rw [List.take_append_drop 3 (List.drop 3 m)]
  exact List.take_append_drop 3 m

/-- Auxiliary: cleaning the grouped CPF rendering recovers the values. -/
theorem clean_renderCPF (l : List Nat) (h : ∀ d ∈ l, d < 10) :
    CPF.clean (Spec.renderCPF l) = l := by
  rw [clean_eq_map_digits, digits_renderCPF l h, List.map_map]
  have hco : ((fun b => b - 48) ∘ (fun d => 48 + d)) = id := by
    funext d
    simp
  rw [hco, List.map_id]

/-- Auxiliary: the CNPJ normalization leaves a string of digits and
uppercase letters unchanged. -/
theorem cnpj_digits_of_alpha : ∀ l : List Nat,
    (∀ b ∈ l, (48 ≤ b ∧ b ≤ 57) ∨ (65 ≤ b ∧ b ≤ 90)) → CNPJ.digits l = l := by
  intro l
  induction l with
  | nil => intro _; rfl
  | cons b rest ih =>
    intro h
    have hb := h b (by simp)
    have hnorm : CNPJ.normalizeChar b = some b := by
      rw [CNPJ.normalizeChar, if_neg (by omega), if_pos hb]
    rw [CNPJ.digits, List.filterMap_cons, hnorm]
    rw [show List.filterMap CNPJ.normalizeChar rest = CNPJ.digits rest from rfl]
    rw [ih (fun x hx => h x (by simp [hx]))]

/-- Auxiliary: over the 36-character alphabet calculateDV always returns
a check digit, and that digit is at most 9. -/
theorem calculateDV_some_of_alpha {l : List Nat}
    (h : ∀ b ∈ l, (48 ≤ b ∧ b ≤ 57) ∨ (65 ≤ b ∧ b ≤ 90)) :
    ∃ v, CNPJ.calculateDV l = some v ∧ v ≤ 9 := by
  have hall : (l.reverse.all fun b => (CNPJ.charToValue b).isSome) = true := by
    rw [List.all_reverse, List.all_eq_true]
    intro b hb
    rw [CNPJ.charToValue, if_pos (h b hb)]
    rfl
  cases hdl : CNPJ.dvLoop l.reverse 0 0 with
  | none =>
    rw [dvLoop_eq _ 0 0 (by norm_num)] at hdl
    simp [hall] at hdl
  | some S =>
    refine ⟨if S % 11 = 0 ∨ S % 11 = 1 then 0 else 11 - S % 11, ?_, ?_⟩
    · simp only [CNPJ.calculateDV, hdl]
      split_ifs <;> rfl
    · have hm : S % 11 < 11 := Nat.mod_lt _ (by norm_num)
      split_ifs with hc
      · omega
      · omega

/-- Claim C5 (amended): every CPF draw sequence whose nine body digits
are not all equal generates an identifier accepted by CPF.Validate, whose
CPF.Format succeeds and whose formatted form is again accepted; every
CNPJ base drawn from the 36-character alphabet (which covers both the
alphanumeric and the legacy digits-only generation modes) generates an
identifier accepted by CNPJ.Validate.  The all-equal CPF bodies are the
exception forced by the counterexample: they generate the degenerate
sequences that Validate rejects. -/
theorem generators_validate :
    (∀ draws : List Nat, draws.length = 9 → (∀ d ∈ draws, d < 10) →
      ¬ (∀ d ∈ draws, d = draws.getD 0 0) →
      CPF.Validate (CPF.Generate draws) = true
      ∧ ∃ out, CPF.Format (CPF.Generate draws) = Except.ok out ∧ CPF.Validate out = true)
    ∧ (∀ base : List Nat, base.length = 12 →
      (∀ b ∈ base, (48 ≤ b ∧ b ≤ 57) ∨ (65 ≤ b ∧ b ≤ 90)) →
      CNPJ.Validate (CNPJ.generateDigits base) = true) := by
  constructor
  · intro draws h9 hlt hne
    have hdv1le : CPF.calculateFirstDigit draws ≤ 9 := calculateFirstDigit_le_nine draws
    have hdv2le : CPF.calculateSecondDigit (draws ++ [CPF.calculateFirstDigit draws]) ≤ 9 :=
      calculateSecondDigit_le_nine _
    have hv2lt : ∀ d ∈ draws ++ [CPF.calculateFirstDigit draws,
        CPF.calculateSecondDigit (draws ++ [CPF.calculateFirstDigit draws])], d < 10 := by
      intro d hd
      rcases List.mem_append.mp hd with h | h
      · exact hlt d h
      · simp at h
        rcases h with rfl | rfl <;> omega
    have hv2len : (draws ++ [CPF.calculateFirstDigit draws,
        CPF.calculateSecondDigit (draws ++ [CPF.calculateFirstDigit draws])]).length = 11 := by
      simp [h9]
    have hne2 : ¬ (∀ d ∈ draws ++ [CPF.calculateFirstDigit draws,
        CPF.calculateSecondDigit (draws ++ [CPF.calculateFirstDigit draws])],
        d = (draws ++ [CPF.calculateFirstDigit draws,
          CPF.calculateSecondDigit (draws ++ [CPF.calculateFirstDigit draws])]).getD 0 0) := by
      intro hall
      apply hne
      intro d hd
      have h1 := hall d (List.mem_append_left _ hd)
      rw [List.getD_append _ _ _ 0 (by omega)] at h1
      exact h1
    have hgen : CPF.Generate draws = (draws ++ [CPF.calculateFirstDigit draws,
        CPF.calculateSecondDigit (draws ++ [CPF.calculateFirstDigit draws])]).map (fun d => 48 + d) := by
      simp only [CPF.Generate]
      rw [show draws ++ [CPF.calculateFirstDigit draws]
            ++ [CPF.calculateSecondDigit (draws ++ [CPF.calculateFirstDigit draws])]
          = draws ++ [CPF.calculateFirstDigit draws,
            CPF.calculateSecondDigit (draws ++ [CPF.calculateFirstDigit draws])] from by simp]
      rw [flatten_map_itoa _ hv2lt, filter_isDigit_map _ hv2lt]
    have hclean : CPF.clean (CPF.Generate draws) = draws ++ [CPF.calculateFirstDigit draws,
        CPF.calculateSecondDigit (draws ++ [CPF.calculateFirstDigit draws])] := by
      rw [hgen, clean_map_digit_bytes _ hv2lt]
    have hdig : CPF.digits (CPF.Generate draws) = (draws ++ [CPF.calculateFirstDigit draws,
        CPF.calculateSecondDigit (draws ++ [CPF.calculateFirstDigit draws])]).map (fun d => 48 + d) := by
      rw [hgen, filter_isDigit_map _ hv2lt]
    have hacc : CPF.isAccepted (CPF.Generate draws) = true := by
      rw [CPF.isAccepted, hdig]
      exact decide_eq_true (map_not_accepted _ hv2len hne2)
    have hval1 : CPF.Validate (CPF.Generate draws) = true := by
      rw [CPF.Validate, hacc, hclean, hv2len]
      simp [validate_generated draws h9]
    refine ⟨hval1, CPF.maskCPF (draws ++ [CPF.calculateFirstDigit draws,
      CPF.calculateSecondDigit (draws ++ [CPF.calculateFirstDigit draws])]), ?_, ?_⟩
    · simp [CPF.Format, hacc, hclean, hv2len]
    · rw [maskCPF_eq_render _ hv2len]
      rw [CPF.Validate, CPF.isAccepted, digits_renderCPF _ hv2lt, clean_renderCPF _ hv2lt, hv2len]
      have hnotacc := map_not_accepted _ hv2len hne2
      simp only [List.map_append, List.map_cons, List.map_nil] at hnotacc
      simp [hnotacc, validate_generated draws h9]
  · intro base hblen halpha
    obtain ⟨dv1, hdv1, hdv1le⟩ := calculateDV_some_of_alpha halpha
    have halpha1 : ∀ b ∈ base ++ [48 + dv1], (48 ≤ b ∧ b ≤ 57) ∨ (65 ≤ b ∧ b ≤ 90) := by
      intro b hb
      rcases List.mem_append.mp hb with h | h
      · exact halpha b h
      · simp at h
        subst h
        left
        omega
    obtain ⟨dv2, hdv2, hdv2le⟩ := calculateDV_some_of_alpha halpha1
    have hgen : CNPJ.generateDigits base = base ++ [48 + dv1] ++ [48 + dv2] := by
      simp only [CNPJ.generateDigits, hdv1, itoa_digit dv1 hdv1le, hdv2, itoa_digit dv2 hdv2le]
    have hall2 : ∀ b ∈ base ++ [48 + dv1] ++ [48 + dv2],
        (48 ≤ b ∧ b ≤ 57) ∨ (65 ≤ b ∧ b ≤ 90) := by
      intro b hb
      rcases List.mem_append.mp hb with h | h
      · exact halpha1 b h
      · simp at h
        subst h
        left
        omega
    have hdig : CNPJ.digits (base ++ [48 + dv1] ++ [48 + dv2]) = base ++ [48 + dv1] ++ [48 + dv2] :=
      cnpj_digits_of_alpha _ hall2
    have hlen14 : (base ++ [48 + dv1] ++ [48 + dv2]).length = 14 := by
      simp [hblen]
    have hg12 : (base ++ [48 + dv1] ++ [48 + dv2]).getD 12 0 = 48 + dv1 := by
      rw [List.getD_append _ _ _ 12 (by simp [hblen])]
      rw [List.getD_append_right _ _ _ 12 (by omega), hblen]
      rfl
    have hg13 : (base ++ [48 + dv1] ++ [48 + dv2]).getD 13 0 = 48 + dv2 := by
      rw [List.getD_append_right _ _ _ 13 (by simp [hblen])]
      simp [hblen]
    have htake12 : (base ++ [48 + dv1] ++ [48 + dv2]).take 12 = base := by
      rw [List.append_assoc]
      exact List.take_left' hblen
    have hsub1 : 48 + dv1 - 48 = dv1 := by omega
    have hsub2 : 48 + dv2 - 48 = dv2 := by omega
    rw [hgen]
    simp only [CNPJ.Validate, hdig]
    rw [if_neg (show ¬((base ++ [48 + dv1] ++ [48 + dv2]).length ≠ 14) from by simp [hblen])]
    rw [hg12, hg13]
    rw [if_neg (show ¬(48 + dv1 < 48 ∨ 57 < 48 + dv1) from by omega)]
    rw [if_neg (show ¬(48 + dv2 < 48 ∨ 57 < 48 + dv2) from by omega)]
    rw [htake12]
    simp only [hdv1, itoa_digit dv1 hdv1le, hdv2, hsub1, hsub2]
    simp

/-- Witness for claim C5 at the body 012345678 and the SERPRO example
base. -/
theorem generators_validate_witness :
    CPF.Validate (CPF.Generate [0, 1, 2, 3, 4, 5, 6, 7, 8]) = true
    ∧ CNPJ.Validate (CNPJ.generateDigits (bytes "12ABC34501DE")) = true :=
  ⟨(generators_validate.1 [0, 1, 2, 3, 4, 5, 6, 7, 8] (by decide) (by decide) (by decide)).1,
   generators_validate.2 (bytes "12ABC34501DE") (by decide) (by decide)⟩
